import Mathlib

/-! # IIRFilter: a biquad lowpass audio processor

A shallow embedding of `Source/PluginProcessor.h` and `Source/PluginProcessor.cpp`
(class `IIRFilterAudioProcessor`) together with theorems about the coefficient
computation (`updateFilter`), the per-block direct-form-I loop (`processBlock`)
and the lifecycle hook (`prepareToPlay`).

The sample type is a parameter `α` carrying only the arithmetic operations the
source uses, so that the structural results hold for whatever arithmetic the
samples live in; `std::cos`, `std::sin` and `juce::MathConstants<float>::pi`
are parameters of the functions that use them.  The numerical results are
stated for `α = ℝ` with `Real.cos`, `Real.sin` and `Real.pi`.

`parameterChanged` may run on another thread than `processBlock`; that is
modelled by schedules (`Interleaving`) that interleave the iterations of the
sample loop with the six member stores of `updateFilter`.
-/

set_option autoImplicit false
set_option linter.unusedSectionVars false
set_option linter.unusedVariables false

namespace IIRFilter

/-! ## Data model (`PluginProcessor.h`) -/

/-- The type `std::array<T, 2>`: exactly two elements, `a[0]` and `a[1]`. -/
structure Array2 (β : Type) where
  e0 : β
  e1 : β
  deriving DecidableEq, Repr

/-- Checked read `a[i]` of a `std::array<T, 2>`: indices other than 0 and 1
are out of range. -/
def Array2.get? {β : Type} (a : Array2 β) : Nat → Option β
  | 0 => some a.e0
  | 1 => some a.e1
  | _ => none

/-- Checked write `a[i] = v` of a `std::array<T, 2>`. -/
def Array2.set? {β : Type} (a : Array2 β) (i : Nat) (v : β) : Option (Array2 β) :=
  match i with
  | 0 => some { a with e0 := v }
  | 1 => some { a with e1 := v }
  | _ => none

/-- The state of an `IIRFilterAudioProcessor` that the filter code reads or
writes: the private members `xBuffers`, `yBuffers`, `a0 .. b2`, the two raw
parameter values held by `apvts`, and the values returned by the base-class
getters `getSampleRate`, `getTotalNumInputChannels` and
`getTotalNumOutputChannels`. -/
structure Processor (α : Type) where
  /-- the value of `static_cast<float>(getSampleRate())` -/
  sampleRate : α
  totalNumInputChannels : Nat
  totalNumOutputChannels : Nat
  /-- the value of `apvts.getRawParameterValue("cutoff")->load()` -/
  cutoff : α
  /-- the value of `apvts.getRawParameterValue("Q_value")->load()` -/
  Q_value : α
  xBuffers : Array2 (Array2 α)
  yBuffers : Array2 (Array2 α)
  a0 : α
  a1 : α
  a2 : α
  b0 : α
  b1 : α
  b2 : α
  deriving DecidableEq, Repr

/-- A `juce::AudioBuffer<float>`: `getNumSamples()` and the channels' sample
data. -/
structure AudioBuffer (α : Type) where
  numSamples : Nat
  channels : List (List α)
  deriving DecidableEq, Repr

/-- The buffer's shape: every channel holds exactly `getNumSamples()` samples. -/
def AudioBuffer.WellShaped {α : Type} (buffer : AudioBuffer α) : Prop :=
  ∀ channelData ∈ buffer.channels, channelData.length = buffer.numSamples

/-- The value of `getNumChannels()`. -/
def AudioBuffer.numChannels {α : Type} (buffer : AudioBuffer α) : Nat :=
  buffer.channels.length

section Code

variable {α : Type} [Add α] [Sub α] [Mul α] [Div α] [Neg α]
  [OfNat α 0] [OfNat α 1] [OfNat α 2]

/-- The member initialisers of `PluginProcessor.h` (lines 59-64): zeroed
history, `a0 = 1, a1 = 0, a2 = 0`, `b0 = 1, b1 = 0, b2 = 0`.  The sample rate,
the channel counts and the two parameter values come from the host and from
`createParameterLayout`. -/
def Processor.initial (sampleRate : α) (totalNumInputChannels totalNumOutputChannels : Nat)
    (cutoff Q_value : α) : Processor α :=
  { sampleRate := sampleRate
    totalNumInputChannels := totalNumInputChannels
    totalNumOutputChannels := totalNumOutputChannels
    cutoff := cutoff
    Q_value := Q_value
    xBuffers := ⟨⟨0, 0⟩, ⟨0, 0⟩⟩
    yBuffers := ⟨⟨0, 0⟩, ⟨0, 0⟩⟩
    a0 := 1, a1 := 0, a2 := 0
    b0 := 1, b1 := 0, b2 := 0 }

/-! ## `updateFilter`, `prepareToPlay`, `parameterChanged` -/

/-- `IIRFilterAudioProcessor::updateFilter` (PluginProcessor.cpp, lines 209-226). -/
def updateFilter (cos sin : α → α) (pi : α) (p : Processor α) (cutoffFreq Q : α) :
    Processor α :=
  let fs := p.sampleRate
  let omega := 2 * pi * (cutoffFreq / fs)
  let cos_omega := cos omega
  let sin_omega := sin omega
  let alpha := sin_omega / (2 * Q)
  { p with
    b0 := (1 - cos_omega) / 2
    b1 := 1 - cos_omega
    b2 := (1 - cos_omega) / 2
    a0 := 1 + alpha
    a1 := -2 * cos_omega
    a2 := 1 - alpha }

/-- `IIRFilterAudioProcessor::prepareToPlay` (lines 98-105).  Neither argument
is used by the body. -/
def prepareToPlay (cos sin : α → α) (pi : α) (p : Processor α)
    (_sampleRate : α) (_samplesPerBlock : Int) : Processor α :=
  let cutoff := p.cutoff
  let Q := p.Q_value
  updateFilter cos sin pi p cutoff Q

/-- `IIRFilterAudioProcessor::parameterChanged` (lines 228-236). -/
def parameterChanged (cos sin : α → α) (pi : α) (p : Processor α)
    (parameterID : String) (_newValue : α) : Processor α :=
  if parameterID = "cutoff" ∨ parameterID = "Q_value" then
    let cutoff := p.cutoff
    let Q := p.Q_value
    updateFilter cos sin pi p cutoff Q
  else p

/-! ## `processBlock` -/

/-- The body of the sample loop (lines 158-171) at index `n`: reads
`channelData[n]`, computes `y0`, writes it back and shifts the history.
`none` when `n` is outside `channelData`. -/
def sampleStep (p : Processor α) (st : List α × Array2 α × Array2 α) (n : Nat) :
    Option (List α × Array2 α × Array2 α) :=
  let channelData := st.1
  let xBuffer := st.2.1
  let yBuffer := st.2.2
  match channelData[n]? with
  | none => none
  | some x0 =>
    let y0 := (p.b0 * x0 + p.b1 * xBuffer.e0 + p.b2 * xBuffer.e1
      - p.a1 * yBuffer.e0 - p.a2 * yBuffer.e1) / p.a0
    let channelData := channelData.set n y0
    let xBuffer := { xBuffer with e1 := xBuffer.e0 }
    let xBuffer := { xBuffer with e0 := x0 }
    let yBuffer := { yBuffer with e1 := yBuffer.e0 }
    let yBuffer := { yBuffer with e0 := y0 }
    some (channelData, xBuffer, yBuffer)

/-- The loop `for (int n = 0; n < numSamples; ++n)` (lines 156-172), entered
at index `n` with `remaining = numSamples - n` iterations to go. -/
def sampleLoop (p : Processor α) :
    Nat → Nat → List α × Array2 α × Array2 α → Option (List α × Array2 α × Array2 α)
  | 0, _, st => some st
  | remaining + 1, n, st =>
    match sampleStep p st n with
    | none => none
    | some st => sampleLoop p remaining (n + 1) st

/-- The body of the channel loop (lines 152-172) for one `channel`:
`getWritePointer (channel)`, the references `xBuffers[channel]` and
`yBuffers[channel]`, then the sample loop, whose writes land in the buffer and
in the two history arrays.  `none` when an index is out of range. -/
def channelStep (numSamples : Nat) (st : Processor α × AudioBuffer α) (channel : Nat) :
    Option (Processor α × AudioBuffer α) :=
  let p := st.1
  let buffer := st.2
  match buffer.channels[channel]?, p.xBuffers.get? channel, p.yBuffers.get? channel with
  | some channelData, some xBuffer, some yBuffer =>
    match sampleLoop p numSamples 0 (channelData, xBuffer, yBuffer) with
    | none => none
    | some (channelData, xBuffer, yBuffer) =>
      match p.xBuffers.set? channel xBuffer, p.yBuffers.set? channel yBuffer with
      | some xBuffers, some yBuffers =>
        some ({ p with xBuffers := xBuffers, yBuffers := yBuffers },
              { buffer with channels := buffer.channels.set channel channelData })
      | _, _ => none
  | _, _, _ => none

/-- The loop `for (int channel = 0; channel < totalNumInputChannels; ++channel)`
(lines 150-173), entered at `channel` with `remaining` iterations to go. -/
def channelLoop (numSamples : Nat) :
    Nat → Nat → Processor α × AudioBuffer α → Option (Processor α × AudioBuffer α)
  | 0, _, st => some st
  | remaining + 1, channel, st =>
    match channelStep numSamples st channel with
    | none => none
    | some st => channelLoop numSamples remaining (channel + 1) st

/-- The call `buffer.clear (i, 0, buffer.getNumSamples())`: zeroes the first
`getNumSamples()` samples of channel `i`.  `none` when the channel or the
sample range is outside the buffer. -/
def AudioBuffer.clear (buffer : AudioBuffer α) (i : Nat) : Option (AudioBuffer α) :=
  match buffer.channels[i]? with
  | none => none
  | some channelData =>
    if buffer.numSamples ≤ channelData.length then
      some { buffer with
        channels := buffer.channels.set i
          (List.replicate buffer.numSamples 0 ++ channelData.drop buffer.numSamples) }
    else none

/-- The loop `for (auto i = totalNumInputChannels; i < totalNumOutputChannels; ++i)`
(lines 147-148), entered at `i` with `remaining` iterations to go. -/
def clearLoop : Nat → Nat → AudioBuffer α → Option (AudioBuffer α)
  | 0, _, buffer => some buffer
  | remaining + 1, i, buffer =>
    match buffer.clear i with
    | none => none
    | some buffer => clearLoop remaining (i + 1) buffer

/-- `IIRFilterAudioProcessor::processBlock` (lines 139-174).  The MIDI buffer
is not used by the body.  `none` when some array or buffer access is out of
range. -/
def processBlock (p : Processor α) (buffer : AudioBuffer α) :
    Option (Processor α × AudioBuffer α) :=
  let totalNumInputChannels := p.totalNumInputChannels
  let totalNumOutputChannels := p.totalNumOutputChannels
  let numSamples := buffer.numSamples
  match clearLoop (totalNumOutputChannels - totalNumInputChannels) totalNumInputChannels
      buffer with
  | none => none
  | some buffer => channelLoop numSamples totalNumInputChannels 0 (p, buffer)

/-! ## The direct-form-I recurrence as the specification words it -/

/-- The six coefficients `{a0, a1, a2, b0, b1, b2}` (spec, FilterCoefficients). -/
structure FilterCoefficients (α : Type) where
  a0 : α
  a1 : α
  a2 : α
  b0 : α
  b1 : α
  b2 : α

/-- The per-channel history `{x1, x2, y1, y2}` (spec, ChannelState). -/
structure ChannelState (α : Type) where
  x1 : α
  x2 : α
  y1 : α
  y2 : α

/-- The coefficient members of the processor. -/
def Processor.coefficients (p : Processor α) : FilterCoefficients α :=
  ⟨p.a0, p.a1, p.a2, p.b0, p.b1, p.b2⟩

/-- The history of one channel: `xBuffers[channel]` holds `x1, x2` and
`yBuffers[channel]` holds `y1, y2`.  `none` for a channel the arrays do not
hold. -/
def Processor.history (p : Processor α) (channel : Nat) : Option (ChannelState α) :=
  match p.xBuffers.get? channel, p.yBuffers.get? channel with
  | some xBuffer, some yBuffer => some ⟨xBuffer.e0, xBuffer.e1, yBuffer.e0, yBuffer.e1⟩
  | _, _ => none

/-- The spec's `ChannelState.process`:
`y0 = (b0*x0 + b1*x1 + b2*x2 - a1*y1 - a2*y2) / a0`, then the history shift
`x2<-x1, x1<-x0 ; y2<-y1, y1<-y0`; returns `y0` and the shifted history. -/
def ChannelState.process (k : FilterCoefficients α) (s : ChannelState α) (x0 : α) :
    α × ChannelState α :=
  let y0 := (k.b0 * x0 + k.b1 * s.x1 + k.b2 * s.x2 - k.a1 * s.y1 - k.a2 * s.y2) / k.a0
  (y0, ⟨x0, s.x1, y0, s.y1⟩)

/-- The spec's per-channel block: `ChannelState.process` on every sample in
order; returns the outputs and the final history. -/
def directFormI (k : FilterCoefficients α) : ChannelState α → List α → List α × ChannelState α
  | s, [] => ([], s)
  | s, x0 :: xs =>
    ((ChannelState.process k s x0).1 :: (directFormI k (ChannelState.process k s x0).2 xs).1,
     (directFormI k (ChannelState.process k s x0).2 xs).2)

/-- The processor with the history of one channel replaced (both arrays). -/
def Processor.withHistory (p : Processor α) (channel : Nat) (s : ChannelState α) :
    Processor α :=
  match channel with
  | 0 => { p with xBuffers := { p.xBuffers with e0 := ⟨s.x1, s.x2⟩ },
                  yBuffers := { p.yBuffers with e0 := ⟨s.y1, s.y2⟩ } }
  | 1 => { p with xBuffers := { p.xBuffers with e1 := ⟨s.x1, s.x2⟩ },
                  yBuffers := { p.yBuffers with e1 := ⟨s.y1, s.y2⟩ } }
  | _ => p

/-- Two consecutive blocks seen as one: channel by channel, the samples of the
first block followed by the samples of the second. -/
def AudioBuffer.append (first second : AudioBuffer α) : AudioBuffer α :=
  { numSamples := first.numSamples + second.numSamples
    channels := List.zipWith (fun xs ys => xs ++ ys) first.channels second.channels }

/-- The coefficients carried into another scalar type. -/
def FilterCoefficients.map {β : Type} (f : α → β) (k : FilterCoefficients α) :
    FilterCoefficients β :=
  ⟨f k.a0, f k.a1, f k.a2, f k.b0, f k.b1, f k.b2⟩

/-! ## `parameterChanged` on another thread while the sample loop runs -/

end Code

/-- The transfer function
`H(z) = (b0 + b1*z^-1 + b2*z^-2) / (a0 + a1*z^-1 + a2*z^-2)` of the
direct-form-I recurrence. -/
def transferFunction {β : Type} [Field β] (k : FilterCoefficients β) (z : β) : β :=
  (k.b0 + k.b1 * z⁻¹ + k.b2 * z⁻¹ ^ 2) / (k.a0 + k.a1 * z⁻¹ + k.a2 * z⁻¹ ^ 2)

/-! ## `createParameterLayout` and `isBusesLayoutSupported` -/

/-- A `juce::AudioParameterFloat` as `createParameterLayout` builds it: the
identifier, the `NormalisableRange` (start, end, interval, skew) and the
default value. -/
structure AudioParameterFloat where
  parameterID : String
  rangeStart : ℚ
  rangeEnd : ℚ
  interval : ℚ
  skew : ℚ
  defaultValue : ℚ

/-- The `"cutoff"` parameter (lines 242-247): range 50 .. 20000, default 1000. -/
def cutoffParameter : AudioParameterFloat :=
  ⟨"cutoff", 50, 20000, 1, 1 / 2, 1000⟩

/-- The `"Q_value"` parameter (lines 249-254): range 0.1 .. 20, default 0.707. -/
def qParameter : AudioParameterFloat :=
  ⟨"Q_value", 1 / 10, 20, 1 / 100, 1 / 2, 707 / 1000⟩

/-- `IIRFilterAudioProcessor::createParameterLayout` (lines 238-257). -/
def createParameterLayout : List AudioParameterFloat :=
  [cutoffParameter, qParameter]

/-- A `juce::AudioChannelSet`: the set of channel types it contains
(left = 1, right = 2, centre = 3, ...). -/
abbrev AudioChannelSet := Finset Nat

/-- `juce::AudioChannelSet::mono()`: the centre channel alone. -/
def AudioChannelSet.mono : AudioChannelSet := {3}

/-- `juce::AudioChannelSet::stereo()`: left and right. -/
def AudioChannelSet.stereo : AudioChannelSet := {1, 2}

/-- The part of a `BusesLayout` that `isBusesLayoutSupported` looks at. -/
structure BusesLayout where
  mainInputChannelSet : AudioChannelSet
  mainOutputChannelSet : AudioChannelSet

/-- `IIRFilterAudioProcessor::isBusesLayoutSupported` (lines 114-136), for a
plugin that is neither a MIDI effect nor a synth. -/
def isBusesLayoutSupported (layouts : BusesLayout) : Bool :=
  if layouts.mainOutputChannelSet ≠ AudioChannelSet.mono
      ∧ layouts.mainOutputChannelSet ≠ AudioChannelSet.stereo then
    false
  else if layouts.mainOutputChannelSet ≠ layouts.mainInputChannelSet then
    false
  else
    true

/-! ## Example inputs -/

/-- A stereo processor in its initial state at 44100 Hz with the default
parameter values. -/
def exampleProcessor : Processor ℚ :=
  Processor.initial 44100 2 2 1000 (707 / 1000)

/-- A stereo block of two samples. -/
def exampleBlock : AudioBuffer ℚ :=
  ⟨2, [[1, 2], [3, 4]]⟩

/-- A stereo block of one sample. -/
def exampleNextBlock : AudioBuffer ℚ :=
  ⟨1, [[5], [6]]⟩

/-- A stereo processor in the middle of playback: the RBJ coefficients for
`cos omega = 3/5`, `sin omega = 4/5`, `Q = 1` (so `alpha = 2/5`) and a
non-zero history on both channels. -/
def exampleFilterState : Processor ℚ :=
  { sampleRate := 44100
    totalNumInputChannels := 2
    totalNumOutputChannels := 2
    cutoff := 6508
    Q_value := 1
    xBuffers := ⟨⟨1, 2⟩, ⟨3, 4⟩⟩
    yBuffers := ⟨⟨1, 1⟩, ⟨2, 2⟩⟩
    a0 := 7 / 5, a1 := -6 / 5, a2 := 3 / 5
    b0 := 1 / 5, b1 := 2 / 5, b2 := 1 / 5 }

/-- The same state with three input and three output channels. -/
def exampleThreeChannelState : Processor ℚ :=
  { exampleFilterState with totalNumInputChannels := 3, totalNumOutputChannels := 3 }

/-- A block of three channels of two samples. -/
def exampleThreeChannelBlock : AudioBuffer ℚ :=
  ⟨2, [[1, 2], [3, 4], [5, 6]]⟩

/-! # Theorems -/

section Lemmas

variable {α : Type} [Add α] [Sub α] [Mul α] [Div α] [Neg α]
  [OfNat α 0] [OfNat α 1] [OfNat α 2]

/-! ## The sample loop computes the direct-form-I recurrence -/

theorem directFormI_append (k : FilterCoefficients α) (xs ys : List α) (s : ChannelState α) :
    directFormI k s (xs ++ ys) =
      ((directFormI k s xs).1 ++ (directFormI k (directFormI k s xs).2 ys).1,
       (directFormI k (directFormI k s xs).2 ys).2) := by
  induction xs generalizing s with
  | nil => simp [directFormI]
  | cons x xs ih => simp [directFormI, ih]

theorem directFormI_length (k : FilterCoefficients α) (xs : List α) (s : ChannelState α) :
    (directFormI k s xs).1.length = xs.length := by
  induction xs generalizing s with
  | nil => simp [directFormI]
  | cons x xs ih => simp [directFormI, ih]

theorem sampleLoop_append (p : Processor α) (ys pre : List α) (xBuffer yBuffer : Array2 α) :
    sampleLoop p ys.length pre.length (pre ++ ys, xBuffer, yBuffer) =
      some (pre ++ (directFormI p.coefficients
              ⟨xBuffer.e0, xBuffer.e1, yBuffer.e0, yBuffer.e1⟩ ys).1,
            ⟨(directFormI p.coefficients
              ⟨xBuffer.e0, xBuffer.e1, yBuffer.e0, yBuffer.e1⟩ ys).2.x1,
             (directFormI p.coefficients
              ⟨xBuffer.e0, xBuffer.e1, yBuffer.e0, yBuffer.e1⟩ ys).2.x2⟩,
            ⟨(directFormI p.coefficients
              ⟨xBuffer.e0, xBuffer.e1, yBuffer.e0, yBuffer.e1⟩ ys).2.y1,
             (directFormI p.coefficients
              ⟨xBuffer.e0, xBuffer.e1, yBuffer.e0, yBuffer.e1⟩ ys).2.y2⟩) := by
  induction ys generalizing pre xBuffer yBuffer with
  | nil => simp [sampleLoop, directFormI]
  | cons x ys ih =>
    have hget : (pre ++ x :: ys)[pre.length]? = some x := by
      rw [List.getElem?_append_right (Nat.le_refl _)]; simp
    simp only [List.length_cons, sampleLoop, sampleStep, hget]
    have hset : ∀ v : α, (pre ++ x :: ys).set pre.length v = (pre ++ [v]) ++ ys := by
      intro v; simp
    have hlen : ∀ v : α, pre.length + 1 = (pre ++ [v]).length := by
      intro v; simp
    rw [hset, hlen ((p.b0 * x + p.b1 * xBuffer.e0 + p.b2 * xBuffer.e1
      - p.a1 * yBuffer.e0 - p.a2 * yBuffer.e1) / p.a0), ih]
    simp [directFormI, ChannelState.process, Processor.coefficients]

/-- The sample loop over a whole channel: the outputs and the final history
are those of `directFormI` started from the history held in the two arrays. -/
theorem sampleLoop_eq (p : Processor α) (xs : List α) (xBuffer yBuffer : Array2 α) :
    sampleLoop p xs.length 0 (xs, xBuffer, yBuffer) =
      some ((directFormI p.coefficients
              ⟨xBuffer.e0, xBuffer.e1, yBuffer.e0, yBuffer.e1⟩ xs).1,
            ⟨(directFormI p.coefficients
              ⟨xBuffer.e0, xBuffer.e1, yBuffer.e0, yBuffer.e1⟩ xs).2.x1,
             (directFormI p.coefficients
              ⟨xBuffer.e0, xBuffer.e1, yBuffer.e0, yBuffer.e1⟩ xs).2.x2⟩,
            ⟨(directFormI p.coefficients
              ⟨xBuffer.e0, xBuffer.e1, yBuffer.e0, yBuffer.e1⟩ xs).2.y1,
             (directFormI p.coefficients
              ⟨xBuffer.e0, xBuffer.e1, yBuffer.e0, yBuffer.e1⟩ xs).2.y2⟩) := by
  have h := sampleLoop_append p xs [] xBuffer yBuffer
  simpa using h

/-! ## The channel loop -/

theorem withHistory_frame (p : Processor α) (c : Nat) (s : ChannelState α) :
    p.withHistory c s =
      { p with xBuffers := (p.withHistory c s).xBuffers,
               yBuffers := (p.withHistory c s).yBuffers } := by
  match c with
  | 0 => rfl
  | 1 => rfl
  | n + 2 => rfl

theorem history_withHistory_self (p : Processor α) (c : Nat) (hc : c < 2)
    (s : ChannelState α) : (p.withHistory c s).history c = some s := by
  match c, hc with
  | 0, _ => rfl
  | 1, _ => rfl

theorem history_withHistory_ne (p : Processor α) (c c1 : Nat) (h : c1 ≠ c)
    (s : ChannelState α) : (p.withHistory c s).history c1 = p.history c1 := by
  match c, c1, h with
  | 0, 1, _ => rfl
  | 0, n + 2, _ => rfl
  | 1, 0, _ => rfl
  | 1, n + 2, _ => rfl
  | n + 2, _, _ => rfl

/-- One pass of the channel loop body on a channel the history arrays hold:
the channel's samples become the direct-form-I outputs, the channel's history
becomes the final direct-form-I history, and nothing else changes. -/
theorem channelStep_spec (numSamples : Nat) (p : Processor α) (buffer : AudioBuffer α)
    (c : Nat) (hc : c < 2) (xs : List α) (hxs : buffer.channels[c]? = some xs)
    (hlen : xs.length = numSamples) :
    ∃ s, p.history c = some s ∧
      channelStep numSamples (p, buffer) c =
        some (p.withHistory c (directFormI p.coefficients s xs).2,
          { buffer with
            channels := buffer.channels.set c (directFormI p.coefficients s xs).1 }) := by
  subst hlen
  match c, hc with
  | 0, _ =>
    refine ⟨⟨p.xBuffers.e0.e0, p.xBuffers.e0.e1, p.yBuffers.e0.e0, p.yBuffers.e0.e1⟩,
      rfl, ?_⟩
    simp only [channelStep, hxs, Array2.get?, sampleLoop_eq, Array2.set?,
      Processor.withHistory]
  | 1, _ =>
    refine ⟨⟨p.xBuffers.e1.e0, p.xBuffers.e1.e1, p.yBuffers.e1.e0, p.yBuffers.e1.e1⟩,
      rfl, ?_⟩
    simp only [channelStep, hxs, Array2.get?, sampleLoop_eq, Array2.set?,
      Processor.withHistory]

/-- The channel loop from `c0` over `r` channels that the history arrays and
the buffer hold: it completes; each channel in the range is replaced by its
direct-form-I outputs and its history by the final history; all other
channels, histories and members are untouched. -/
theorem channelLoop_spec (numSamples : Nat) :
    ∀ (r c0 : Nat) (p : Processor α) (buffer : AudioBuffer α),
      c0 + r ≤ 2 → c0 + r ≤ buffer.channels.length →
      (∀ channelData ∈ buffer.channels, channelData.length = numSamples) →
      ∃ p1 buffer1, channelLoop numSamples r c0 (p, buffer) = some (p1, buffer1) ∧
        p1 = { p with xBuffers := p1.xBuffers, yBuffers := p1.yBuffers } ∧
        buffer1.numSamples = buffer.numSamples ∧
        buffer1.channels.length = buffer.channels.length ∧
        (∀ c, c0 ≤ c → c < c0 + r → ∃ xs s, buffer.channels[c]? = some xs ∧
          p.history c = some s ∧
          buffer1.channels[c]? = some (directFormI p.coefficients s xs).1 ∧
          p1.history c = some (directFormI p.coefficients s xs).2) ∧
        (∀ c, c < c0 ∨ c0 + r ≤ c →
          buffer1.channels[c]? = buffer.channels[c]? ∧ p1.history c = p.history c) := by
  intro r
  induction r with
  | zero =>
    intro c0 p buffer _ _ _
    refine ⟨p, buffer, rfl, rfl, rfl, rfl, ?_, ?_⟩
    · intro c h1 h2; omega
    · intro c _; exact ⟨rfl, rfl⟩
  | succ r ih =>
    intro c0 p buffer h2 hlen hshape
    have hc0 : c0 < buffer.channels.length := by omega
    obtain ⟨xs, hxs⟩ : ∃ xs, buffer.channels[c0]? = some xs :=
      ⟨buffer.channels[c0], List.getElem?_eq_getElem hc0⟩
    have hxl : xs.length = numSamples :=
      hshape xs (List.getElem?_mem hxs)
    obtain ⟨s, hs, hstep⟩ :=
      channelStep_spec numSamples p buffer c0 (by omega) xs hxs hxl
    generalize hp1d : p.withHistory c0 (directFormI p.coefficients s xs).2 = p1 at hstep
    have hp1 : p1 = { p with xBuffers := p1.xBuffers, yBuffers := p1.yBuffers } := by
      rw [← hp1d]; exact withHistory_frame _ _ _
    have hh1 : p1.history c0 = some (directFormI p.coefficients s xs).2 := by
      rw [← hp1d]; exact history_withHistory_self _ _ (by omega) _
    have hframe : ∀ c1, c1 ≠ c0 → p1.history c1 = p.history c1 := by
      intro c1 h; rw [← hp1d]; exact history_withHistory_ne _ _ _ h _
    have hco : p1.coefficients = p.coefficients := by rw [hp1]; rfl
    have hshape1 : ∀ channelData ∈ buffer.channels.set c0 (directFormI p.coefficients s xs).1,
        channelData.length = numSamples := by
      intro cd hcd
      rcases List.mem_or_eq_of_mem_set hcd with h | h
      · exact hshape cd h
      · rw [h, directFormI_length, hxl]
    obtain ⟨p2, b2, hloop, hp2, hn2, hl2, hin, hout⟩ :=
      ih (c0 + 1) p1 { buffer with
        channels := buffer.channels.set c0 (directFormI p.coefficients s xs).1 }
        (by omega) (by simp; omega) hshape1
    refine ⟨p2, b2, ?_, ?_, ?_, ?_, ?_, ?_⟩
    · simp only [channelLoop, hstep, hloop]
    · rw [hp2]; rw [hp1]
    · simpa using hn2
    · simpa using hl2
    · intro c hc1 hc2
      by_cases hcc : c = c0
      · subst hcc
        obtain ⟨hb, hh⟩ := hout c (Or.inl (Nat.lt_succ_self c))
        refine ⟨xs, s, hxs, hs, ?_, ?_⟩
        · rw [hb]; simp [List.getElem?_set_self, hc0]
        · rw [hh, hh1]
      · obtain ⟨xs1, s1, hx1, hs1, hb1, hh2⟩ := hin c (by omega) (by omega)
        refine ⟨xs1, s1, ?_, ?_, ?_, ?_⟩
        · rw [← hx1]; simp [List.getElem?_set_ne (Ne.symm hcc)]
        · rw [← hs1, hframe c hcc]
        · rw [hb1, hco]
        · rw [hh2, hco]
    · intro c hc
      have hcc : c ≠ c0 := by omega
      obtain ⟨hb, hh⟩ := hout c (by omega)
      refine ⟨?_, ?_⟩
      · rw [hb]; simp [List.getElem?_set_ne (Ne.symm hcc)]
      · rw [hh, hframe c hcc]

/-! ## The clear loop and the whole of `processBlock` -/

theorem clear_spec (buffer : AudioBuffer α) (i : Nat) (hi : i < buffer.channels.length)
    (hshape : buffer.WellShaped) :
    buffer.clear i = some { buffer with
      channels := buffer.channels.set i (List.replicate buffer.numSamples 0) } := by
  have hget : buffer.channels[i]? = some buffer.channels[i] := List.getElem?_eq_getElem hi
  have hlen : (buffer.channels[i]).length = buffer.numSamples :=
    hshape _ (List.getElem?_mem hget)
  have hdrop : List.drop buffer.numSamples buffer.channels[i] = [] := by
    rw [List.drop_eq_nil_iff]; omega
  simp only [AudioBuffer.clear, hget, hlen, Nat.le_refl, if_true, hdrop, List.append_nil]

/-- The clear loop from `i0` over `r` channels the buffer holds: it completes,
the channels in the range become silence and the others are untouched. -/
theorem clearLoop_spec :
    ∀ (r i0 : Nat) (buffer : AudioBuffer α),
      i0 + r ≤ buffer.channels.length → buffer.WellShaped →
      ∃ buffer1, clearLoop r i0 buffer = some buffer1 ∧
        buffer1.numSamples = buffer.numSamples ∧
        buffer1.channels.length = buffer.channels.length ∧
        buffer1.WellShaped ∧
        (∀ c, i0 ≤ c → c < i0 + r →
          buffer1.channels[c]? = some (List.replicate buffer.numSamples 0)) ∧
        (∀ c, c < i0 ∨ i0 + r ≤ c → buffer1.channels[c]? = buffer.channels[c]?) := by
  intro r
  induction r with
  | zero =>
    intro i0 buffer _ hshape
    refine ⟨buffer, rfl, rfl, rfl, hshape, ?_, ?_⟩
    · intro c h1 h2; omega
    · intro c _; rfl
  | succ r ih =>
    intro i0 buffer hlen hshape
    have hi0 : i0 < buffer.channels.length := by omega
    have hshape1 : AudioBuffer.WellShaped { buffer with
        channels := buffer.channels.set i0 (List.replicate buffer.numSamples 0) } := by
      intro cd hcd
      rcases List.mem_or_eq_of_mem_set hcd with h | h
      · exact hshape cd h
      · rw [h]; simp
    obtain ⟨b2, hloop, hn2, hl2, hs2, hin, hout⟩ :=
      ih (i0 + 1) { buffer with
        channels := buffer.channels.set i0 (List.replicate buffer.numSamples 0) }
        (by simp; omega) hshape1
    refine ⟨b2, ?_, ?_, ?_, hs2, ?_, ?_⟩
    · simp only [clearLoop, clear_spec buffer i0 hi0 hshape, hloop]
    · simpa using hn2
    · simpa using hl2
    · intro c hc1 hc2
      by_cases hcc : c = i0
      · subst hcc
        rw [hout c (Or.inl (Nat.lt_succ_self c))]
        simp [List.getElem?_set_self, hi0]
      · simpa using hin c (by omega) (by omega)
    · intro c hc
      have hcc : c ≠ i0 := by omega
      rw [hout c (by omega)]
      simp [List.getElem?_set_ne (Ne.symm hcc)]

/-- What `processBlock` does to a buffer of the declared shape when the history
arrays hold every input channel: it completes; each input channel is replaced
by its direct-form-I outputs and its history by the final history; each output
channel without an input becomes silence; nothing else changes. -/
theorem processBlock_spec (p : Processor α) (buffer : AudioBuffer α)
    (hshape : buffer.WellShaped) (hin2 : p.totalNumInputChannels ≤ 2)
    (hin : p.totalNumInputChannels ≤ buffer.numChannels)
    (hout : p.totalNumOutputChannels ≤ buffer.numChannels) :
    ∃ p1 buffer1, processBlock p buffer = some (p1, buffer1) ∧
      p1 = { p with xBuffers := p1.xBuffers, yBuffers := p1.yBuffers } ∧
      buffer1.numSamples = buffer.numSamples ∧
      buffer1.channels.length = buffer.channels.length ∧
      (∀ c, c < p.totalNumInputChannels → ∃ xs s, buffer.channels[c]? = some xs ∧
        p.history c = some s ∧
        buffer1.channels[c]? = some (directFormI p.coefficients s xs).1 ∧
        p1.history c = some (directFormI p.coefficients s xs).2) ∧
      (∀ c, p.totalNumInputChannels ≤ c → c < p.totalNumOutputChannels →
        buffer1.channels[c]? = some (List.replicate buffer.numSamples 0)) ∧
      (∀ c, p.totalNumInputChannels ≤ c → p.totalNumOutputChannels ≤ c →
        buffer1.channels[c]? = buffer.channels[c]?) ∧
      (∀ c, p.totalNumInputChannels ≤ c → p1.history c = p.history c) := by
  unfold AudioBuffer.numChannels at hin hout
  obtain ⟨b1, hclear, hn1, hl1, hs1, hzero, hkeep⟩ :=
    clearLoop_spec (p.totalNumOutputChannels - p.totalNumInputChannels)
      p.totalNumInputChannels buffer (by omega) hshape
  obtain ⟨p2, b2, hloop, hp2, hn2, hl2, hdf, hrest⟩ :=
    channelLoop_spec buffer.numSamples p.totalNumInputChannels 0 p b1
      (by omega) (by omega) (by intro cd hcd; rw [← hn1]; exact hs1 cd hcd)
  refine ⟨p2, b2, ?_, hp2, by omega, by omega, ?_, ?_, ?_, ?_⟩
  · simp only [processBlock, hclear, hloop]
  · intro c hc
    obtain ⟨xs, s, hx, hs, hb, hh⟩ := hdf c (Nat.zero_le c) (by omega)
    exact ⟨xs, s, by rw [← hx, hkeep c (Or.inl hc)], hs, hb, hh⟩
  · intro c hc1 hc2
    rw [(hrest c (Or.inr (by omega))).1]
    exact hzero c hc1 (by omega)
  · intro c hc1 hc2
    rw [(hrest c (Or.inr (by omega))).1]
    exact hkeep c (Or.inr (by omega))
  · intro c hc
    exact (hrest c (Or.inr (by omega))).2

/-! ## Consecutive blocks -/

theorem append_getElem? (first second : AudioBuffer α) (c : Nat) (xs ys : List α)
    (hx : first.channels[c]? = some xs) (hy : second.channels[c]? = some ys) :
    (first.append second).channels[c]? = some (xs ++ ys) := by
  simp [AudioBuffer.append, List.getElem?_zipWith, hx, hy]

theorem append_wellShaped (first second : AudioBuffer α)
    (h1 : first.WellShaped) (h2 : second.WellShaped) :
    (first.append second).WellShaped := by
  intro cd hcd
  obtain ⟨n, hn⟩ := List.mem_iff_getElem?.mp hcd
  simp only [AudioBuffer.append, List.getElem?_zipWith] at hn
  cases hx : first.channels[n]? with
  | none => simp [hx] at hn
  | some xs =>
    cases hy : second.channels[n]? with
    | none => simp [hx, hy] at hn
    | some ys =>
      simp only [hx, hy, Option.some.injEq] at hn
      rw [← hn, List.length_append, h1 xs (List.getElem?_mem hx),
        h2 ys (List.getElem?_mem hy)]
      rfl

theorem append_numChannels (first second : AudioBuffer α) (n : Nat)
    (h1 : n ≤ first.numChannels) (h2 : n ≤ second.numChannels) :
    n ≤ (first.append second).numChannels := by
  unfold AudioBuffer.numChannels at *
  simp only [AudioBuffer.append, List.length_zipWith]
  omega

/-! ## Outputs of the recurrence, sample by sample -/

theorem directFormI_getElem? (k : FilterCoefficients α) (xs : List α) (s : ChannelState α)
    (n : Nat) (h : n < xs.length) :
    (directFormI k s xs).1[n]? =
      some (ChannelState.process k (directFormI k s (xs.take n)).2 xs[n]).1 := by
  have hsplit : xs = xs.take n ++ xs[n] :: xs.drop (n + 1) := by
    rw [← List.drop_eq_getElem_cons h, List.take_append_drop]
  have hlen : (directFormI k s (xs.take n)).1.length = n := by
    rw [directFormI_length, List.length_take]; omega
  conv_lhs => rw [hsplit, directFormI_append]
  rw [List.getElem?_append_right (by omega), hlen]
  simp [directFormI]

theorem directFormI_replicate_succ (k : FilterCoefficients α) (s : ChannelState α)
    (c : α) (n : Nat) :
    (directFormI k s (List.replicate (n + 1) c)).2 =
      (ChannelState.process k (directFormI k s (List.replicate n c)).2 c).2 := by
  rw [List.replicate_succ', directFormI_append]
  simp [directFormI]

/-! ## Schedules of the audio and the control thread -/

end Lemmas

/-! ## Claims about `updateFilter`, `prepareToPlay` and `processBlock` that hold
in any arithmetic -/

/-- C1. `updateFilter (cutoff, Q)` stores exactly the RBJ lowpass coefficient
set: with `omega = 2*pi*cutoff/fs` and `alpha = sin omega / (2*Q)` it sets
`b0 = (1 - cos omega)/2`, `b1 = 1 - cos omega`, `b2 = (1 - cos omega)/2`,
`a0 = 1 + alpha`, `a1 = -2 * cos omega`, `a2 = 1 - alpha`.  The stored set is
the same from any processor state with the same sample rate (it does not
depend on the previous coefficients or on the channel history), and the
channel history is left unchanged.  Holds in every field, for every `cos`,
`sin` and `pi`. -/
theorem updateFilter_stores_rbj_lowpass {α : Type} [Field α] (cos sin : α → α) (pi : α)
    (p : Processor α) (cutoff Q : α) :
    (updateFilter cos sin pi p cutoff Q).b0
        = (1 - cos (2 * pi * cutoff / p.sampleRate)) / 2 ∧
    (updateFilter cos sin pi p cutoff Q).b1
        = 1 - cos (2 * pi * cutoff / p.sampleRate) ∧
    (updateFilter cos sin pi p cutoff Q).b2
        = (1 - cos (2 * pi * cutoff / p.sampleRate)) / 2 ∧
    (updateFilter cos sin pi p cutoff Q).a0
        = 1 + sin (2 * pi * cutoff / p.sampleRate) / (2 * Q) ∧
    (updateFilter cos sin pi p cutoff Q).a1
        = -2 * cos (2 * pi * cutoff / p.sampleRate) ∧
    (updateFilter cos sin pi p cutoff Q).a2
        = 1 - sin (2 * pi * cutoff / p.sampleRate) / (2 * Q) ∧
    (updateFilter cos sin pi p cutoff Q).xBuffers = p.xBuffers ∧
    (updateFilter cos sin pi p cutoff Q).yBuffers = p.yBuffers ∧
    (∀ c, (updateFilter cos sin pi p cutoff Q).history c = p.history c) ∧
    (∀ q : Processor α, q.sampleRate = p.sampleRate →
      (updateFilter cos sin pi q cutoff Q).coefficients
        = (updateFilter cos sin pi p cutoff Q).coefficients) := by
  have hw : 2 * pi * cutoff / p.sampleRate = 2 * pi * (cutoff / p.sampleRate) :=
    mul_div_assoc _ _ _
  rw [hw]
  refine ⟨rfl, rfl, rfl, rfl, rfl, rfl, rfl, rfl, fun _ => rfl, ?_⟩
  intro q hq
  simp only [updateFilter, Processor.coefficients, hq]

section Blocks

variable {α : Type} [Add α] [Sub α] [Mul α] [Div α] [Neg α]
  [OfNat α 0] [OfNat α 1] [OfNat α 2]

/-- C2 (amended). For a processor whose input channels the history arrays hold
(at most two) and two consecutive blocks of the declared shape: `processBlock`
completes on each; it replaces the samples `xs` of every input channel `c`,
in order, by the direct-form-I outputs computed from the coefficients and the
history `s` that channel `c` had on entry, and leaves the final direct-form-I
history in channel `c`; the second block starts from the history the first
one left; and processing the two blocks as one block gives, on every input
channel, the same outputs and the same final history. -/
theorem processBlock_direct_form_I (p : Processor α) (first second : AudioBuffer α)
    (hin2 : p.totalNumInputChannels ≤ 2)
    (hshape1 : first.WellShaped)
    (hin1 : p.totalNumInputChannels ≤ first.numChannels)
    (hout1 : p.totalNumOutputChannels ≤ first.numChannels)
    (hshape2 : second.WellShaped)
    (hin2nd : p.totalNumInputChannels ≤ second.numChannels)
    (hout2nd : p.totalNumOutputChannels ≤ second.numChannels) :
    ∃ p1 out1 p2 out2 p12 out12,
      processBlock p first = some (p1, out1) ∧
      processBlock p1 second = some (p2, out2) ∧
      processBlock p (first.append second) = some (p12, out12) ∧
      (∀ c, c < p.totalNumInputChannels → ∃ xs s,
        first.channels[c]? = some xs ∧ p.history c = some s ∧
        out1.channels[c]? = some (directFormI p.coefficients s xs).1 ∧
        p1.history c = some (directFormI p.coefficients s xs).2) ∧
      (∀ c, c < p.totalNumInputChannels → ∃ ys s1,
        second.channels[c]? = some ys ∧ p1.history c = some s1 ∧
        out2.channels[c]? = some (directFormI p.coefficients s1 ys).1 ∧
        p2.history c = some (directFormI p.coefficients s1 ys).2) ∧
      (∀ c, c < p.totalNumInputChannels →
        out12.channels[c]? = (out1.append out2).channels[c]? ∧
        p12.history c = p2.history c) := by
  obtain ⟨p1, out1, hr1, hp1, -, -, hdf1, -, -, -⟩ :=
    processBlock_spec p first hshape1 hin2 hin1 hout1
  have hco1 : p1.coefficients = p.coefficients := by rw [hp1]; rfl
  have hni1 : p1.totalNumInputChannels = p.totalNumInputChannels := by rw [hp1]
  have hno1 : p1.totalNumOutputChannels = p.totalNumOutputChannels := by rw [hp1]
  obtain ⟨p2, out2, hr2, -, -, -, hdf2, -, -, -⟩ :=
    processBlock_spec p1 second hshape2 (by omega) (by omega) (by omega)
  obtain ⟨p12, out12, hr12, -, -, -, hdf12, -, -, -⟩ :=
    processBlock_spec p (first.append second) (append_wellShaped _ _ hshape1 hshape2)
      hin2 (append_numChannels _ _ _ hin1 hin2nd) (append_numChannels _ _ _ hout1 hout2nd)
  refine ⟨p1, out1, p2, out2, p12, out12, hr1, hr2, hr12, hdf1, ?_, ?_⟩
  · intro c hc
    obtain ⟨ys, s1, hy, hs1, ho2, hh2⟩ := hdf2 c (by omega)
    exact ⟨ys, s1, hy, hs1, by rw [ho2, hco1], by rw [hh2, hco1]⟩
  · intro c hc
    obtain ⟨xs, s, hx, hs, ho1, hh1⟩ := hdf1 c hc
    obtain ⟨ys, s1, hy, hs1, ho2, hh2⟩ := hdf2 c (by omega)
    obtain ⟨zs, s0, hz, hs0, ho12, hh12⟩ := hdf12 c hc
    have hzs : zs = xs ++ ys := by
      have := append_getElem? first second c xs ys hx hy
      rw [hz] at this
      exact Option.some.inj this
    have hs00 : s0 = s := by
      rw [hs] at hs0; exact (Option.some.inj hs0).symm
    have hs11 : s1 = (directFormI p.coefficients s xs).2 := by
      rw [hh1] at hs1; exact (Option.some.inj hs1).symm
    subst hzs hs00 hs11
    rw [hco1] at ho2 hh2
    refine ⟨?_, ?_⟩
    · rw [ho12, append_getElem? out1 out2 c _ _ ho1 ho2, directFormI_append]
    · rw [hh12, hh2, directFormI_append]

/-- C9 (amended). When the processor has at most two input channels (the two
channels the history arrays hold) and the buffer has the declared shape (every
channel has `getNumSamples()` samples and the buffer has at least as many
channels as the processor has inputs and outputs), `processBlock` completes
with every access in range; the buffer keeps its shape and every output
channel without an input is silence. -/
theorem processBlock_total_up_to_two_channels (p : Processor α) (buffer : AudioBuffer α)
    (hin2 : p.totalNumInputChannels ≤ 2)
    (hshape : buffer.WellShaped)
    (hin : p.totalNumInputChannels ≤ buffer.numChannels)
    (hout : p.totalNumOutputChannels ≤ buffer.numChannels) :
    ∃ p1 buffer1, processBlock p buffer = some (p1, buffer1) ∧
      buffer1.numSamples = buffer.numSamples ∧
      buffer1.numChannels = buffer.numChannels ∧
      (∀ c, c < p.totalNumInputChannels → ∃ ys,
        buffer1.channels[c]? = some ys ∧ ys.length = buffer.numSamples) ∧
      (∀ c, p.totalNumInputChannels ≤ c → c < p.totalNumOutputChannels →
        buffer1.channels[c]? = some (List.replicate buffer.numSamples 0)) := by
  obtain ⟨p1, b1, hr, -, hn, hl, hdf, hz, -, -⟩ :=
    processBlock_spec p buffer hshape hin2 hin hout
  refine ⟨p1, b1, hr, hn, hl, ?_, hz⟩
  intro c hc
  obtain ⟨xs, s, hx, -, ho, -⟩ := hdf c hc
  exact ⟨_, ho, by rw [directFormI_length]; exact hshape xs (List.getElem?_mem hx)⟩

/-- C8 (amended). `prepareToPlay` makes no check of the sample rate: for every
value of `getSampleRate()` and of its `sampleRate` argument, zero and negative
ones included, it stores what `updateFilter` computes from the current cutoff
and Q, with `omega = 2*pi*(cutoff / getSampleRate())` evaluated in the samples'
own arithmetic; the stored set is the same from any coefficients in effect
before the call, so those do not stay in effect. -/
theorem prepareToPlay_stores_for_any_sample_rate (cos sin : α → α) (pi : α)
    (p : Processor α) (sampleRate : α) (samplesPerBlock : Int) :
    prepareToPlay cos sin pi p sampleRate samplesPerBlock
      = updateFilter cos sin pi p p.cutoff p.Q_value ∧
    (prepareToPlay cos sin pi p sampleRate samplesPerBlock).a0
      = 1 + sin (2 * pi * (p.cutoff / p.sampleRate)) / (2 * p.Q_value) ∧
    (prepareToPlay cos sin pi p sampleRate samplesPerBlock).a1
      = -2 * cos (2 * pi * (p.cutoff / p.sampleRate)) ∧
    (prepareToPlay cos sin pi p sampleRate samplesPerBlock).a2
      = 1 - sin (2 * pi * (p.cutoff / p.sampleRate)) / (2 * p.Q_value) ∧
    (prepareToPlay cos sin pi p sampleRate samplesPerBlock).b0
      = (1 - cos (2 * pi * (p.cutoff / p.sampleRate))) / 2 ∧
    (prepareToPlay cos sin pi p sampleRate samplesPerBlock).b1
      = 1 - cos (2 * pi * (p.cutoff / p.sampleRate)) ∧
    (prepareToPlay cos sin pi p sampleRate samplesPerBlock).b2
      = (1 - cos (2 * pi * (p.cutoff / p.sampleRate))) / 2 ∧
    ∀ (q : Processor α) (sampleRateQ : α) (samplesPerBlockQ : Int),
      q.sampleRate = p.sampleRate → q.cutoff = p.cutoff → q.Q_value = p.Q_value →
      (prepareToPlay cos sin pi q sampleRateQ samplesPerBlockQ).coefficients
        = (prepareToPlay cos sin pi p sampleRate samplesPerBlock).coefficients := by
  refine ⟨rfl, rfl, rfl, rfl, rfl, rfl, rfl, ?_⟩
  intro q sampleRateQ samplesPerBlockQ h1 h2 h3
  simp only [prepareToPlay, updateFilter, Processor.coefficients, h1, h2, h3]

end Blocks

/-! ## Real-arithmetic lemmas -/

theorem omega_range (cutoff fs : ℝ) (h0 : 0 < cutoff) (h1 : cutoff < fs / 2) :
    0 < 2 * Real.pi * (cutoff / fs) ∧ 2 * Real.pi * (cutoff / fs) < Real.pi := by
  have hfs : 0 < fs := by linarith
  have hpi := Real.pi_pos
  have hr : 0 < cutoff / fs := div_pos h0 hfs
  have hr2 : cutoff / fs < 1 / 2 := by
    rw [div_lt_iff₀ hfs]; linarith
  constructor
  · positivity
  · nlinarith

theorem cos_sin_range (w : ℝ) (h0 : 0 < w) (h1 : w < Real.pi) :
    0 < Real.sin w ∧ -1 < Real.cos w ∧ Real.cos w < 1 := by
  have hs := Real.sin_pos_of_pos_of_lt_pi h0 h1
  have h := Real.cos_sq_add_sin_sq w
  refine ⟨hs, ?_, ?_⟩ <;> nlinarith

theorem roots_inside (al c : ℝ) (hal : 0 < al) (hc1 : -1 < c) (hc2 : c < 1) (z : ℂ)
    (hz : ((1 + al : ℝ) : ℂ) * z ^ 2 + ((-2 * c : ℝ) : ℂ) * z + ((1 - al : ℝ) : ℂ) = 0) :
    Complex.abs z < 1 := by
  have hre := congrArg Complex.re hz
  have him := congrArg Complex.im hz
  simp [pow_two] at hre him
  have key : z.re * z.re + z.im * z.im < 1 := by
    by_cases hy : z.im = 0
    · rw [hy] at hre ⊢
      by_contra hcon
      push_neg at hcon
      nlinarith [sq_nonneg (z.re - c), mul_pos hal hal]
    · have hx : (1 + al) * z.re = c := by
        have : z.im * ((1 + al) * z.re - c) = 0 := by nlinarith
        rcases mul_eq_zero.mp this with h | h
        · exact absurd h hy
        · linarith
      have h3 : (1 + al) * (z.re * z.re + z.im * z.im) = 1 - al := by
        have h4 := hre
        rw [← hx] at h4
        linarith
      by_contra hcon
      push_neg at hcon
      have h5 : (1 + al) * 1 ≤ (1 + al) * (z.re * z.re + z.im * z.im) :=
        mul_le_mul_of_nonneg_left hcon (by linarith)
      linarith
  by_contra hcon
  push_neg at hcon
  have h2 : 1 ≤ Complex.abs z ^ 2 := by nlinarith
  rw [Complex.sq_abs, Complex.normSq_apply] at h2
  linarith

theorem exists_root (p q : ℝ) : ∃ z1 z2 : ℂ, z1 + z2 = -(p : ℂ) ∧ z1 * z2 = (q : ℂ) ∧
    z1 ^ 2 + (p : ℂ) * z1 + (q : ℂ) = 0 ∧ z2 ^ 2 + (p : ℂ) * z2 + (q : ℂ) = 0 := by
  obtain ⟨z1, hz1⟩ := exists_quadratic_eq_zero (a := (1 : ℂ)) (b := (p : ℂ)) (c := (q : ℂ))
    one_ne_zero (IsAlgClosed.exists_eq_mul_self _)
  refine ⟨z1, -(p : ℂ) - z1, by ring, ?_, ?_, ?_⟩
  · linear_combination (-1 : ℂ) * hz1
  · linear_combination hz1
  · linear_combination hz1

theorem recurrence_bound (r C : ℝ) (a : ℕ → ℝ) (hr : 0 ≤ r)
    (ha : ∀ n, a (n + 1) ≤ r * a n + C * r ^ n) (n : ℕ) :
    a (n + 1) ≤ a 0 * r ^ (n + 1) + C * ((n + 1 : ℕ) : ℝ) * r ^ n := by
  induction n with
  | zero => have := ha 0; simp at this ⊢; linarith
  | succ n ih =>
    have h1 := ha (n + 1)
    have h2 : r * a (n + 1) ≤ r * (a 0 * r ^ (n + 1) + C * ((n + 1 : ℕ) : ℝ) * r ^ n) :=
      mul_le_mul_of_nonneg_left ih hr
    calc a (n + 1 + 1) ≤ r * a (n + 1) + C * r ^ (n + 1) := h1
      _ ≤ r * (a 0 * r ^ (n + 1) + C * ((n + 1 : ℕ) : ℝ) * r ^ n) + C * r ^ (n + 1) := by
        linarith
      _ = a 0 * r ^ (n + 1 + 1) + C * ((n + 1 + 1 : ℕ) : ℝ) * r ^ (n + 1) := by
        push_cast; ring

theorem recurrence_tendsto_zero (p q : ℝ)
    (hroots : ∀ z : ℂ, z ^ 2 + (p : ℂ) * z + (q : ℂ) = 0 → Complex.abs z < 1)
    (e : ℕ → ℝ) (he : ∀ n, e (n + 2) = -p * e (n + 1) - q * e n) :
    Filter.Tendsto e Filter.atTop (nhds 0) := by
  obtain ⟨z1, z2, hsum, hprod, hr1, hr2⟩ := exists_root p q
  have hz1 := hroots z1 hr1
  have hz2 := hroots z2 hr2
  set r : ℝ := max (Complex.abs z1) (Complex.abs z2) with hr
  have hr0 : 0 ≤ r := le_max_of_le_left (AbsoluteValue.nonneg _ _)
  have hrlt : r < 1 := max_lt hz1 hz2
  have hf : ∀ n, ((e (n + 1) : ℝ) : ℂ) - z1 * (e n : ℂ) =
      z2 ^ n * (((e 1 : ℝ) : ℂ) - z1 * (e 0 : ℂ)) := by
    intro n
    induction n with
    | zero => simp
    | succ n ih =>
      have h := he n
      have hc : ((e (n + 2) : ℝ) : ℂ) = -(p : ℂ) * (e (n + 1) : ℂ) - (q : ℂ) * (e n : ℂ) := by
        rw [h]; push_cast; ring
      rw [pow_succ, mul_assoc, mul_comm z2, ← mul_assoc, ← ih]
      rw [show n + 1 + 1 = n + 2 from rfl, hc]
      linear_combination (-(e (n + 1) : ℂ)) * hsum + (e n : ℂ) * hprod
  set C : ℝ := Complex.abs (((e 1 : ℝ) : ℂ) - z1 * (e 0 : ℂ)) with hC
  have hC0 : 0 ≤ C := AbsoluteValue.nonneg _ _
  have hstep : ∀ n, |e (n + 1)| ≤ r * |e n| + C * r ^ n := by
    intro n
    have h1 : ((e (n + 1) : ℝ) : ℂ) = z1 * (e n : ℂ) +
        z2 ^ n * (((e 1 : ℝ) : ℂ) - z1 * (e 0 : ℂ)) := by
      rw [← hf n]; ring
    have h2 : |e (n + 1)| = Complex.abs ((e (n + 1) : ℝ) : ℂ) := (Complex.abs_ofReal _).symm
    rw [h2, h1]
    refine (Complex.abs.add_le _ _).trans ?_
    rw [map_mul, map_mul, map_pow, Complex.abs_ofReal]
    have h3 : Complex.abs z1 * |e n| ≤ r * |e n| :=
      mul_le_mul_of_nonneg_right (le_max_left _ _) (abs_nonneg _)
    have h4 : Complex.abs z2 ^ n * C ≤ r ^ n * C :=
      mul_le_mul_of_nonneg_right
        (pow_le_pow_left₀ (AbsoluteValue.nonneg _ _) (le_max_right _ _) n) hC0
    linarith
  have hbound := recurrence_bound r C (fun n => |e n|) hr0 hstep
  have hlim : Filter.Tendsto (fun n : ℕ => |e 0| * r ^ (n + 1) + C * ((n + 1 : ℕ) : ℝ) * r ^ n)
      Filter.atTop (nhds 0) := by
    have t1 : Filter.Tendsto (fun n : ℕ => r ^ n) Filter.atTop (nhds 0) :=
      tendsto_pow_atTop_nhds_zero_of_lt_one hr0 hrlt
    have t2 : Filter.Tendsto (fun n : ℕ => (n : ℝ) * r ^ n) Filter.atTop (nhds 0) :=
      tendsto_self_mul_const_pow_of_lt_one hr0 hrlt
    have t3 : Filter.Tendsto (fun n : ℕ => |e 0| * r * r ^ n + C * ((n : ℝ) * r ^ n) + C * r ^ n)
        Filter.atTop (nhds (|e 0| * r * 0 + C * 0 + C * 0)) :=
      ((t1.const_mul _).add (t2.const_mul _)).add (t1.const_mul _)
    simp only [mul_zero, add_zero] at t3
    refine t3.congr ?_
    intro n
    push_cast
    ring
  have habs : Filter.Tendsto (fun n => |e (n + 1)|) Filter.atTop (nhds 0) :=
    squeeze_zero (fun n => abs_nonneg _) hbound hlim
  have habs2 : Filter.Tendsto (fun n => |e n|) Filter.atTop (nhds 0) :=
    (Filter.tendsto_add_atTop_iff_nat 1).mp habs
  exact (tendsto_zero_iff_abs_tendsto_zero e).mpr habs2

theorem transfer_algebra (C S Qc z : ℂ) (hcs : C ^ 2 + S ^ 2 = 1)
    (hu : z⁻¹ = C - Complex.I * S) (hz : z ≠ 0) (hSc : S ≠ 0) (hQc : Qc ≠ 0) :
    (1 + S / (2 * Qc)) + (-2 * C) * z⁻¹ + (1 - S / (2 * Qc)) * z⁻¹ ^ 2 ≠ 0 ∧
    ((1 - C) / 2 + (1 - C) * z⁻¹ + (1 - C) / 2 * z⁻¹ ^ 2) /
      ((1 + S / (2 * Qc)) + (-2 * C) * z⁻¹ + (1 - S / (2 * Qc)) * z⁻¹ ^ 2)
      = -Complex.I * Qc := by
  have hI : Complex.I ^ 2 = -1 := Complex.I_sq
  have hu0 : z⁻¹ ≠ 0 := inv_ne_zero hz
  generalize z⁻¹ = u at hu hu0
  set A : ℂ := S / (2 * Qc) with hAdef
  have hA : A * (2 * Qc) = S := by
    rw [hAdef]; field_simp
  have hA0 : A ≠ 0 := by
    intro h; rw [h, zero_mul] at hA; exact hSc hA.symm
  have h1 : u ^ 2 - 2 * C * u + 1 = 0 := by
    rw [hu]; linear_combination (-1 : ℂ) * hcs + S ^ 2 * hI
  have h4 : 1 - u ^ 2 = 2 * Complex.I * S * u := by
    rw [hu]; linear_combination (-1 : ℂ) * hcs + S ^ 2 * hI
  have hnum : (1 - C) / 2 + (1 - C) * u + (1 - C) / 2 * u ^ 2 = S ^ 2 * u := by
    linear_combination ((1 - C) / 2) * h1 - u * hcs
  have hden : (1 + A) + (-2 * C) * u + (1 - A) * u ^ 2 = A * (2 * Complex.I * S * u) := by
    rw [← h4]; linear_combination h1
  have hden0 : A * (2 * Complex.I * S * u) ≠ 0 :=
    mul_ne_zero hA0
      (mul_ne_zero (mul_ne_zero (mul_ne_zero two_ne_zero Complex.I_ne_zero) hSc) hu0)
  refine ⟨by rw [hden]; exact hden0, ?_⟩
  rw [hnum, hden, div_eq_iff hden0]
  linear_combination (-S * u) * hA + (2 * Qc * A * S * u) * hI

theorem a0_positive_aux (p : Processor ℝ) (cutoff Q : ℝ)
    (h0 : 0 < cutoff) (h1 : cutoff < p.sampleRate / 2) (hQ : 0 < Q) :
    0 < (updateFilter Real.cos Real.sin Real.pi p cutoff Q).a0 := by
  obtain ⟨hw0, hwpi⟩ := omega_range cutoff p.sampleRate h0 h1
  obtain ⟨hsin, -, -⟩ := cos_sin_range _ hw0 hwpi
  have hal : 0 < Real.sin (2 * Real.pi * (cutoff / p.sampleRate)) / (2 * Q) :=
    div_pos hsin (by linarith)
  show 0 < 1 + Real.sin (2 * Real.pi * (cutoff / p.sampleRate)) / (2 * Q)
  linarith

/-- The complex sinusoid `z^n` in, `H(z) * z^n` out: one step of the
recurrence from the steady-state history. -/
theorem transfer_steady_state (K : FilterCoefficients ℂ) (z : ℂ) (hz : z ≠ 0)
    (ha0 : K.a0 ≠ 0) (hden : K.a0 + K.a1 * z⁻¹ + K.a2 * z⁻¹ ^ 2 ≠ 0) (n : ℕ) :
    (ChannelState.process K
      ⟨z ^ (n + 1), z ^ n, transferFunction K z * z ^ (n + 1), transferFunction K z * z ^ n⟩
      (z ^ (n + 2))).1 = transferFunction K z * z ^ (n + 2) := by
  have hH : transferFunction K z * (K.a0 + K.a1 * z⁻¹ + K.a2 * z⁻¹ ^ 2)
      = K.b0 + K.b1 * z⁻¹ + K.b2 * z⁻¹ ^ 2 := by
    unfold transferFunction
    exact div_mul_cancel₀ _ hden
  generalize transferFunction K z = H at hH
  have hu : z⁻¹ * z = 1 := inv_mul_cancel₀ hz
  generalize z⁻¹ = u at hH hu
  show (K.b0 * z ^ (n + 2) + K.b1 * z ^ (n + 1) + K.b2 * z ^ n
    - K.a1 * (H * z ^ (n + 1)) - K.a2 * (H * z ^ n)) / K.a0 = H * z ^ (n + 2)
  rw [div_eq_iff ha0]
  linear_combination (-(z ^ (n + 2))) * hH
    - (z ^ (n + 1) * (K.b1 - K.a1 * H) + z ^ n * (K.b2 - K.a2 * H) * (u * z + 1)) * hu

/-- At the configured cutoff the transfer function of the stored coefficients
is `-i * Q`. -/
theorem transfer_at_cutoff (p : Processor ℝ) (cutoff Q : ℝ)
    (h0 : 0 < cutoff) (h1 : cutoff < p.sampleRate / 2) (hQ : 0 < Q) :
    ((updateFilter Real.cos Real.sin Real.pi p cutoff Q).coefficients.map Complex.ofReal).a0
      + ((updateFilter Real.cos Real.sin Real.pi p cutoff Q).coefficients.map
          Complex.ofReal).a1
        * (Complex.exp (((2 * Real.pi * cutoff / p.sampleRate : ℝ) : ℂ) * Complex.I))⁻¹
      + ((updateFilter Real.cos Real.sin Real.pi p cutoff Q).coefficients.map
          Complex.ofReal).a2
        * (Complex.exp (((2 * Real.pi * cutoff / p.sampleRate : ℝ) : ℂ) * Complex.I))⁻¹ ^ 2
      ≠ 0 ∧
    transferFunction
      ((updateFilter Real.cos Real.sin Real.pi p cutoff Q).coefficients.map Complex.ofReal)
      (Complex.exp (((2 * Real.pi * cutoff / p.sampleRate : ℝ) : ℂ) * Complex.I))
      = -Complex.I * (Q : ℂ) := by
  obtain ⟨hw0, hwpi⟩ := omega_range cutoff p.sampleRate h0 h1
  obtain ⟨hsin, -, -⟩ := cos_sin_range _ hw0 hwpi
  have hw : 2 * Real.pi * cutoff / p.sampleRate = 2 * Real.pi * (cutoff / p.sampleRate) :=
    mul_div_assoc _ _ _
  rw [hw]
  simp only [transferFunction, updateFilter, Processor.coefficients, FilterCoefficients.map]
  generalize 2 * Real.pi * (cutoff / p.sampleRate) = w at hsin
  have hQc : (Q : ℂ) ≠ 0 := by exact_mod_cast hQ.ne'
  have hSc : Complex.sin (w : ℂ) ≠ 0 := by
    rw [← Complex.ofReal_sin]; exact_mod_cast hsin.ne'
  have hu : (Complex.exp ((w : ℂ) * Complex.I))⁻¹ =
      Complex.cos (w : ℂ) - Complex.I * Complex.sin (w : ℂ) := by
    rw [← Complex.exp_neg, ← neg_mul, Complex.exp_mul_I]
    simp
    ring
  have h := transfer_algebra _ _ _ _ (Complex.cos_sq_add_sin_sq (w : ℂ)) hu
    (Complex.exp_ne_zero _) hSc hQc
  push_cast
  exact h

/-! ## Claims in exact real arithmetic -/

/-- C6. The coefficient `a0` that `processBlock` divides by is not zero: the
initial coefficient set has `a0 = 1`, and for every cutoff, Q and sample rate
with `0 < cutoff < fs/2` and `Q > 0`, `updateFilter` stores `a0 > 0`. -/
theorem a0_positive (p : Processor ℝ) (cutoff Q : ℝ)
    (h0 : 0 < cutoff) (h1 : cutoff < p.sampleRate / 2) (hQ : 0 < Q) :
    (Processor.initial p.sampleRate p.totalNumInputChannels p.totalNumOutputChannels
      p.cutoff p.Q_value).a0 = 1 ∧
    (Processor.initial p.sampleRate p.totalNumInputChannels p.totalNumOutputChannels
      p.cutoff p.Q_value).a0 ≠ 0 ∧
    0 < (updateFilter Real.cos Real.sin Real.pi p cutoff Q).a0 ∧
    (updateFilter Real.cos Real.sin Real.pi p cutoff Q).a0 ≠ 0 := by
  obtain ⟨hw0, hwpi⟩ := omega_range cutoff p.sampleRate h0 h1
  obtain ⟨hsin, -, -⟩ := cos_sin_range _ hw0 hwpi
  have hal : 0 < Real.sin (2 * Real.pi * (cutoff / p.sampleRate)) / (2 * Q) :=
    div_pos hsin (by linarith)
  have hpos : 0 < (updateFilter Real.cos Real.sin Real.pi p cutoff Q).a0 := by
    show 0 < 1 + Real.sin (2 * Real.pi * (cutoff / p.sampleRate)) / (2 * Q)
    linarith
  exact ⟨rfl, one_ne_zero, hpos, hpos.ne'⟩

/-- C3 (amended). For all cutoff in [50, 20000] Hz, all Q in [0.1, 20] and any
sample rate `fs >= 2 * 20000` with `cutoff < fs/2` (which leaves out only
`cutoff = 20000` at `fs = 40000`), the coefficients computed by `updateFilter`
have `a0 ≠ 0` and every root of `a0*z^2 + a1*z + a2` has modulus strictly less
than 1. -/
theorem poles_inside_unit_circle (p : Processor ℝ) (cutoff Q : ℝ)
    (hc1 : (cutoffParameter.rangeStart : ℝ) ≤ cutoff)
    (hc2 : cutoff ≤ (cutoffParameter.rangeEnd : ℝ))
    (hq1 : (qParameter.rangeStart : ℝ) ≤ Q)
    (hq2 : Q ≤ (qParameter.rangeEnd : ℝ))
    (hfs : 2 * (cutoffParameter.rangeEnd : ℝ) ≤ p.sampleRate)
    (hny : cutoff < p.sampleRate / 2) :
    (updateFilter Real.cos Real.sin Real.pi p cutoff Q).a0 ≠ 0 ∧
    ∀ z : ℂ,
      ((updateFilter Real.cos Real.sin Real.pi p cutoff Q).a0 : ℂ) * z ^ 2
        + ((updateFilter Real.cos Real.sin Real.pi p cutoff Q).a1 : ℂ) * z
        + ((updateFilter Real.cos Real.sin Real.pi p cutoff Q).a2 : ℂ) = 0 →
      Complex.abs z < 1 := by
  have h0 : 0 < cutoff := by
    have : (cutoffParameter.rangeStart : ℝ) = 50 := by norm_num [cutoffParameter]
    linarith
  have hQ : 0 < Q := by
    have : (qParameter.rangeStart : ℝ) = 1 / 10 := by norm_num [qParameter]
    linarith
  obtain ⟨hw0, hwpi⟩ := omega_range cutoff p.sampleRate h0 hny
  obtain ⟨hsin, hcos1, hcos2⟩ := cos_sin_range _ hw0 hwpi
  have hal : 0 < Real.sin (2 * Real.pi * (cutoff / p.sampleRate)) / (2 * Q) :=
    div_pos hsin (by linarith)
  refine ⟨?_, ?_⟩
  · show 1 + Real.sin (2 * Real.pi * (cutoff / p.sampleRate)) / (2 * Q) ≠ 0
    exact (by linarith : (0 : ℝ) <
      1 + Real.sin (2 * Real.pi * (cutoff / p.sampleRate)) / (2 * Q)).ne'
  · intro z hz
    exact roots_inside _ _ hal hcos1 hcos2 z hz

/-- C4. For any valid `(cutoff, Q, fs)` (`0 < cutoff < fs/2`, `Q > 0`), any
constant `c` and any starting history, the sample loop run with the
coefficients computed by `updateFilter` on the constant input `c, c, c, ...`
completes for every block length and its outputs `y 0, y 1, ...` (the same
for every block length) converge to `c`; moreover
`b0 + b1 + b2 = a0 + a1 + a2`, and from the history `x1 = x2 = y1 = y2 = c`
the input `c` gives the output `c` and the same history. -/
theorem constant_input_converges (p : Processor ℝ) (cutoff Q c : ℝ)
    (xBuffer yBuffer : Array2 ℝ)
    (h0 : 0 < cutoff) (h1 : cutoff < p.sampleRate / 2) (hQ : 0 < Q) :
    (∃ y : ℕ → ℝ,
      (∀ L n, n < L → ∃ st,
        sampleLoop (updateFilter Real.cos Real.sin Real.pi p cutoff Q) L 0
          (List.replicate L c, xBuffer, yBuffer) = some st ∧
        st.1[n]? = some (y n)) ∧
      Filter.Tendsto y Filter.atTop (nhds c)) ∧
    (updateFilter Real.cos Real.sin Real.pi p cutoff Q).b0
      + (updateFilter Real.cos Real.sin Real.pi p cutoff Q).b1
      + (updateFilter Real.cos Real.sin Real.pi p cutoff Q).b2
      = (updateFilter Real.cos Real.sin Real.pi p cutoff Q).a0
      + (updateFilter Real.cos Real.sin Real.pi p cutoff Q).a1
      + (updateFilter Real.cos Real.sin Real.pi p cutoff Q).a2 ∧
    sampleStep (updateFilter Real.cos Real.sin Real.pi p cutoff Q)
      ([c], ⟨c, c⟩, ⟨c, c⟩) 0 = some ([c], ⟨c, c⟩, ⟨c, c⟩) := by
  obtain ⟨hw0, hwpi⟩ := omega_range cutoff p.sampleRate h0 h1
  obtain ⟨hsin, hcos1, hcos2⟩ := cos_sin_range _ hw0 hwpi
  have hal : 0 < Real.sin (2 * Real.pi * (cutoff / p.sampleRate)) / (2 * Q) :=
    div_pos hsin (by linarith)
  generalize hk : updateFilter Real.cos Real.sin Real.pi p cutoff Q = k
  have hb0 : k.b0 = (1 - Real.cos (2 * Real.pi * (cutoff / p.sampleRate))) / 2 := by
    rw [← hk]; rfl
  have hb1 : k.b1 = 1 - Real.cos (2 * Real.pi * (cutoff / p.sampleRate)) := by
    rw [← hk]; rfl
  have hb2 : k.b2 = (1 - Real.cos (2 * Real.pi * (cutoff / p.sampleRate))) / 2 := by
    rw [← hk]; rfl
  have ha0 : k.a0 = 1 + Real.sin (2 * Real.pi * (cutoff / p.sampleRate)) / (2 * Q) := by
    rw [← hk]; rfl
  have ha1 : k.a1 = -2 * Real.cos (2 * Real.pi * (cutoff / p.sampleRate)) := by
    rw [← hk]; rfl
  have ha2 : k.a2 = 1 - Real.sin (2 * Real.pi * (cutoff / p.sampleRate)) / (2 * Q) := by
    rw [← hk]; rfl
  have hdc : k.b0 + k.b1 + k.b2 = k.a0 + k.a1 + k.a2 := by
    rw [hb0, hb1, hb2, ha0, ha1, ha2]; ring
  have ha0pos : 0 < k.a0 := by rw [ha0]; linarith
  have ha0ne : k.a0 ≠ 0 := ha0pos.ne'
  refine ⟨?_, hdc, ?_⟩
  · let S : ℕ → ChannelState ℝ := fun n =>
      (directFormI k.coefficients ⟨xBuffer.e0, xBuffer.e1, yBuffer.e0, yBuffer.e1⟩
        (List.replicate n c)).2
    let y : ℕ → ℝ := fun n => (ChannelState.process k.coefficients (S n) c).1
    refine ⟨y, ?_, ?_⟩
    · intro L n hn
      have h := sampleLoop_eq k (List.replicate L c) xBuffer yBuffer
      rw [List.length_replicate] at h
      refine ⟨_, h, ?_⟩
      have hn2 : n < (List.replicate L c).length := by simpa using hn
      show (directFormI k.coefficients _ (List.replicate L c)).1[n]? = some (y n)
      rw [directFormI_getElem? _ _ _ n hn2]
      simp only [List.take_replicate, Nat.min_eq_left hn.le, List.getElem_replicate]
    · have hS : ∀ n, S (n + 1) = (ChannelState.process k.coefficients (S n) c).2 :=
        fun n => directFormI_replicate_succ _ _ _ _
      have hx1 : ∀ n, (S (n + 1)).x1 = c := by
        intro n; rw [hS]; rfl
      have hy1 : ∀ n, (S (n + 1)).y1 = y n := by
        intro n; rw [hS]; rfl
      have hx2 : ∀ n, (S (n + 2)).x2 = c := by
        intro n; rw [hS]; exact hx1 n
      have hy2 : ∀ n, (S (n + 2)).y2 = y n := by
        intro n; rw [hS]; exact hy1 n
      have hrec : ∀ n, y (n + 2) =
          (k.b0 * c + k.b1 * c + k.b2 * c - k.a1 * y (n + 1) - k.a2 * y n) / k.a0 := by
        intro n
        show (k.b0 * c + k.b1 * (S (n + 2)).x1 + k.b2 * (S (n + 2)).x2
          - k.a1 * (S (n + 2)).y1 - k.a2 * (S (n + 2)).y2) / k.a0 = _
        rw [hx1 (n + 1), hx2 n, hy1 (n + 1), hy2 n]
      have he : ∀ n, (fun m => y m - c) (n + 2) =
          -(k.a1 / k.a0) * (fun m => y m - c) (n + 1)
            - (k.a2 / k.a0) * (fun m => y m - c) n := by
        intro n
        show y (n + 2) - c = -(k.a1 / k.a0) * (y (n + 1) - c) - (k.a2 / k.a0) * (y n - c)
        rw [hrec n, ← sub_eq_zero]
        have h : (k.b0 * c + k.b1 * c + k.b2 * c - k.a1 * y (n + 1) - k.a2 * y n) / k.a0 - c
            - (-(k.a1 / k.a0) * (y (n + 1) - c) - (k.a2 / k.a0) * (y n - c))
            = (c * (k.b0 + k.b1 + k.b2) - c * (k.a0 + k.a1 + k.a2)) / k.a0 := by
          field_simp
          ring
        rw [h, hdc, sub_self, zero_div]
      have hroots : ∀ z : ℂ,
          z ^ 2 + ((k.a1 / k.a0 : ℝ) : ℂ) * z + ((k.a2 / k.a0 : ℝ) : ℂ) = 0 →
          Complex.abs z < 1 := by
        intro z hz
        have ha0c : (k.a0 : ℂ) ≠ 0 := by exact_mod_cast ha0ne
        have hz2 : (k.a0 : ℂ) * z ^ 2 + (k.a1 : ℂ) * z + (k.a2 : ℂ) = 0 := by
          push_cast at hz
          have h3 : (k.a0 : ℂ) * (z ^ 2 + (k.a1 : ℂ) / (k.a0 : ℂ) * z
              + (k.a2 : ℂ) / (k.a0 : ℂ))
              = (k.a0 : ℂ) * z ^ 2 + (k.a1 : ℂ) * z + (k.a2 : ℂ) := by
            field_simp
            ring
          rw [← h3, hz, mul_zero]
        rw [ha0, ha1, ha2] at hz2
        exact roots_inside _ _ hal hcos1 hcos2 z hz2
      have hlim := recurrence_tendsto_zero _ _ hroots (fun m => y m - c) he
      have hlim2 := hlim.add_const c
      simpa using hlim2
  · have hfix : (k.b0 * c + k.b1 * c + k.b2 * c - k.a1 * c - k.a2 * c) / k.a0 = c := by
      rw [div_eq_iff ha0ne]
      linear_combination c * hdc
    simp only [sampleStep, List.getElem?_cons_zero, hfix, List.set_cons_zero]

/-- C5. For `Q = 0.707` and every valid cutoff and sample rate
(`0 < cutoff < fs/2`), with `K` the coefficients stored by `updateFilter`,
`z = e^(i*omega)`, `omega = 2*pi*cutoff/fs` and `H = H(z)` the transfer
function `(b0 + b1*z^-1 + b2*z^-2)/(a0 + a1*z^-1 + a2*z^-2)`: the denominator
is not zero, the gain `|H|` is within 5% of 0.707, and `H` is the steady-state
response of the recurrence (the input `z^n` with the history of the outputs
`H*z^n` gives the output `H*z^(n+2)`). -/
theorem gain_at_cutoff (p : Processor ℝ) (cutoff : ℝ)
    (h0 : 0 < cutoff) (h1 : cutoff < p.sampleRate / 2) :
    ∃ (K : FilterCoefficients ℂ) (z H : ℂ),
      K = (updateFilter Real.cos Real.sin Real.pi p cutoff 0.707).coefficients.map
            Complex.ofReal ∧
      z = Complex.exp (((2 * Real.pi * cutoff / p.sampleRate : ℝ) : ℂ) * Complex.I) ∧
      H = transferFunction K z ∧
      K.a0 + K.a1 * z⁻¹ + K.a2 * z⁻¹ ^ 2 ≠ 0 ∧
      |Complex.abs H - 0.707| ≤ 0.05 * 0.707 ∧
      ∀ n : ℕ,
        (ChannelState.process K ⟨z ^ (n + 1), z ^ n, H * z ^ (n + 1), H * z ^ n⟩
          (z ^ (n + 2))).1 = H * z ^ (n + 2) := by
  have hQ : (0 : ℝ) < 0.707 := by norm_num
  obtain ⟨hden, hH⟩ := transfer_at_cutoff p cutoff 0.707 h0 h1 hQ
  have ha0 := (a0_positive_aux p cutoff 0.707 h0 h1 hQ)
  refine ⟨_, _, _, rfl, rfl, rfl, hden, ?_, ?_⟩
  · rw [hH]
    have habs : Complex.abs (-Complex.I * ((0.707 : ℝ) : ℂ)) = 0.707 := by
      rw [map_mul, map_neg_eq_map, Complex.abs_I, one_mul, Complex.abs_ofReal]
      exact abs_of_pos hQ
    rw [habs]
    norm_num
  · intro n
    refine transfer_steady_state _ _ (Complex.exp_ne_zero _) ?_ hden n
    show ((updateFilter Real.cos Real.sin Real.pi p cutoff 0.707).a0 : ℂ) ≠ 0
    exact_mod_cast ha0.ne'

/-! ## The supported bus layouts -/

/-- A layout that `isBusesLayoutSupported` accepts has the same channel set on
input and output, of one or two channels. -/
theorem isBusesLayoutSupported_channels (layouts : BusesLayout)
    (h : isBusesLayoutSupported layouts = true) :
    layouts.mainInputChannelSet = layouts.mainOutputChannelSet ∧
    layouts.mainInputChannelSet.card ≤ 2 := by
  unfold isBusesLayoutSupported at h
  by_cases h1 : layouts.mainOutputChannelSet ≠ AudioChannelSet.mono
      ∧ layouts.mainOutputChannelSet ≠ AudioChannelSet.stereo
  · simp [h1] at h
  · by_cases h2 : layouts.mainOutputChannelSet ≠ layouts.mainInputChannelSet
    · simp [h1, h2] at h
    · have h3 : layouts.mainOutputChannelSet = layouts.mainInputChannelSet := by
        simpa using h2
      refine ⟨h3.symm, ?_⟩
      rw [← h3]
      have h4 : layouts.mainOutputChannelSet = AudioChannelSet.mono
          ∨ layouts.mainOutputChannelSet = AudioChannelSet.stereo := by
        by_contra hcon
        push_neg at hcon
        exact h1 hcon
      rcases h4 with h4 | h4 <;> rw [h4] <;> decide

/-! ## Concrete inputs -/

/-- C3, the claim as stated fails at the corner of the ranges: for
`cutoff = 20000`, `Q = 0.707` and `fs = 40000 = 2 * 20000` the stored
coefficients are `a0 = 1, a1 = 2, a2 = 1`, so `z = -1` is a root of
`a0*z^2 + a1*z + a2`, of modulus 1. -/
theorem pole_on_unit_circle_at_nyquist :
    (cutoffParameter.rangeStart : ℝ) ≤ 20000 ∧
    (20000 : ℝ) ≤ (cutoffParameter.rangeEnd : ℝ) ∧
    (qParameter.rangeStart : ℝ) ≤ 0.707 ∧
    (0.707 : ℝ) ≤ (qParameter.rangeEnd : ℝ) ∧
    2 * (cutoffParameter.rangeEnd : ℝ) ≤ 40000 ∧
    ((updateFilter Real.cos Real.sin Real.pi
        (Processor.initial 40000 2 2 1000 0.707) 20000 0.707).a0 : ℂ) * (-1 : ℂ) ^ 2
      + ((updateFilter Real.cos Real.sin Real.pi
        (Processor.initial 40000 2 2 1000 0.707) 20000 0.707).a1 : ℂ) * (-1 : ℂ)
      + ((updateFilter Real.cos Real.sin Real.pi
        (Processor.initial 40000 2 2 1000 0.707) 20000 0.707).a2 : ℂ) = 0 ∧
    ¬ Complex.abs (-1 : ℂ) < 1 := by
  have hw : 2 * Real.pi * ((20000 : ℝ) / 40000) = Real.pi := by ring
  refine ⟨by norm_num [cutoffParameter], by norm_num [cutoffParameter],
    by norm_num [qParameter], by norm_num [qParameter], by norm_num [cutoffParameter],
    ?_, by simp⟩
  simp only [updateFilter, Processor.initial, hw, Real.sin_pi, Real.cos_pi]
  push_cast
  ring

/-- C8, the claim as stated fails: with the sample rate `-200`, cutoff 50 and
Q 0.5, `prepareToPlay` replaces the initial `a0 = 1` by
`a0 = 1 + sin (2*pi*50/(-200)) / (2*0.5) = 0`. -/
theorem prepareToPlay_accepts_negative_sample_rate :
    (Processor.initial (-200 : ℝ) 2 2 50 (1 / 2)).a0 = 1 ∧
    (prepareToPlay Real.cos Real.sin Real.pi
      (Processor.initial (-200 : ℝ) 2 2 50 (1 / 2)) (-200) 512).a0 = 0 := by
  have hw : 2 * Real.pi * ((50 : ℝ) / -200) = -(Real.pi / 2) := by ring
  refine ⟨rfl, ?_⟩
  simp only [prepareToPlay, updateFilter, Processor.initial, hw, Real.sin_neg,
    Real.sin_pi_div_two]
  norm_num

/-- C9, the claim as stated fails: with three input channels and a buffer of
three channels of one sample each, the access `xBuffers[2]` is out of range. -/
theorem processBlock_three_channels_out_of_range :
    (⟨1, [[1], [1], [1]]⟩ : AudioBuffer ℝ).WellShaped ∧
    (⟨1, [[1], [1], [1]]⟩ : AudioBuffer ℝ).numChannels = 3 ∧
    processBlock (Processor.initial (44100 : ℝ) 3 3 1000 0.707) ⟨1, [[1], [1], [1]]⟩
      = none := by
  refine ⟨by simp [AudioBuffer.WellShaped], rfl, ?_⟩
  simp [processBlock, clearLoop, channelLoop, channelStep, sampleLoop, sampleStep,
    Array2.get?, Array2.set?, Processor.initial]

/-- C2, the claim as stated fails for a third input channel: the history arrays
hold two channels, so channel 2 has no history and `processBlock` does not
complete; the samples of channel 2 are not replaced by filter outputs. -/
theorem processBlock_third_input_channel_unfiltered :
    exampleThreeChannelBlock.WellShaped ∧
    exampleThreeChannelState.totalNumInputChannels = 3 ∧
    exampleThreeChannelBlock.channels[2]? = some [5, 6] ∧
    exampleThreeChannelState.history 2 = none ∧
    processBlock exampleThreeChannelState exampleThreeChannelBlock = none := by
  refine ⟨by simp [AudioBuffer.WellShaped, exampleThreeChannelBlock], rfl, rfl, rfl, ?_⟩
  decide

/-- Witness of C2 (amended) on a processor in the middle of playback (all six
coefficients and the history of both channels non-zero) and two consecutive
blocks; the outputs and final history of the first block are
`[8/7, 62/49]`, `[19/7, 163/49]`, and the one-sample second block gives
`694/343` and `1412/343`. -/
theorem processBlock_direct_form_I_witness :
    (exampleFilterState.totalNumInputChannels ≤ 2 ∧
     exampleBlock.WellShaped ∧
     exampleFilterState.totalNumInputChannels ≤ exampleBlock.numChannels ∧
     exampleFilterState.totalNumOutputChannels ≤ exampleBlock.numChannels ∧
     exampleNextBlock.WellShaped ∧
     exampleFilterState.totalNumInputChannels ≤ exampleNextBlock.numChannels ∧
     exampleFilterState.totalNumOutputChannels ≤ exampleNextBlock.numChannels) ∧
    (∃ p1 out1 p2 out2 p12 out12,
      processBlock exampleFilterState exampleBlock = some (p1, out1) ∧
      processBlock p1 exampleNextBlock = some (p2, out2) ∧
      processBlock exampleFilterState (exampleBlock.append exampleNextBlock)
        = some (p12, out12) ∧
      (∀ c, c < exampleFilterState.totalNumInputChannels → ∃ xs s,
        exampleBlock.channels[c]? = some xs ∧ exampleFilterState.history c = some s ∧
        out1.channels[c]? = some (directFormI exampleFilterState.coefficients s xs).1 ∧
        p1.history c = some (directFormI exampleFilterState.coefficients s xs).2) ∧
      (∀ c, c < exampleFilterState.totalNumInputChannels → ∃ ys s1,
        exampleNextBlock.channels[c]? = some ys ∧ p1.history c = some s1 ∧
        out2.channels[c]? = some (directFormI exampleFilterState.coefficients s1 ys).1 ∧
        p2.history c = some (directFormI exampleFilterState.coefficients s1 ys).2) ∧
      (∀ c, c < exampleFilterState.totalNumInputChannels →
        out12.channels[c]? = (out1.append out2).channels[c]? ∧
        p12.history c = p2.history c)) ∧
    (processBlock exampleFilterState exampleBlock).map
        (fun r => (r.2.channels, r.1.xBuffers, r.1.yBuffers))
      = some ([[8 / 7, 62 / 49], [19 / 7, 163 / 49]], ⟨⟨2, 1⟩, ⟨4, 3⟩⟩,
          ⟨⟨62 / 49, 8 / 7⟩, ⟨163 / 49, 19 / 7⟩⟩) ∧
    (processBlock exampleFilterState (exampleBlock.append exampleNextBlock)).map
        (fun r => (r.2.channels, r.1.xBuffers, r.1.yBuffers))
      = some ([[8 / 7, 62 / 49, 694 / 343], [19 / 7, 163 / 49, 1412 / 343]],
          ⟨⟨5, 2⟩, ⟨6, 4⟩⟩, ⟨⟨694 / 343, 62 / 49⟩, ⟨1412 / 343, 163 / 49⟩⟩) := by
  refine ⟨⟨by decide, by simp [AudioBuffer.WellShaped, exampleBlock], by decide, by decide,
      by simp [AudioBuffer.WellShaped, exampleNextBlock], by decide, by decide⟩,
    processBlock_direct_form_I exampleFilterState exampleBlock exampleNextBlock
      (by decide) (by simp [AudioBuffer.WellShaped, exampleBlock]) (by decide) (by decide)
      (by simp [AudioBuffer.WellShaped, exampleNextBlock]) (by decide) (by decide),
    ?_, ?_⟩
  · simp only [processBlock, clearLoop, channelLoop, channelStep, sampleLoop, sampleStep,
      Array2.get?, Array2.set?, exampleFilterState, exampleBlock]
    norm_num
  · simp only [processBlock, clearLoop, channelLoop, channelStep, sampleLoop, sampleStep,
      Array2.get?, Array2.set?, exampleFilterState, exampleBlock, exampleNextBlock,
      AudioBuffer.append]
    norm_num

/-- Witness of C9 (amended) on the example processor and block. -/
theorem processBlock_total_up_to_two_channels_witness :
    (exampleProcessor.totalNumInputChannels ≤ 2 ∧
     exampleBlock.WellShaped ∧
     exampleProcessor.totalNumInputChannels ≤ exampleBlock.numChannels ∧
     exampleProcessor.totalNumOutputChannels ≤ exampleBlock.numChannels) ∧
    ∃ p1 buffer1, processBlock exampleProcessor exampleBlock = some (p1, buffer1) ∧
      buffer1.numSamples = exampleBlock.numSamples ∧
      buffer1.numChannels = exampleBlock.numChannels ∧
      (∀ c, c < exampleProcessor.totalNumInputChannels → ∃ ys,
        buffer1.channels[c]? = some ys ∧ ys.length = exampleBlock.numSamples) ∧
      (∀ c, exampleProcessor.totalNumInputChannels ≤ c →
        c < exampleProcessor.totalNumOutputChannels →
        buffer1.channels[c]? = some (List.replicate exampleBlock.numSamples 0)) :=
  ⟨⟨by decide, by simp [AudioBuffer.WellShaped, exampleBlock], by decide, by decide⟩,
   processBlock_total_up_to_two_channels exampleProcessor exampleBlock
    (by decide) (by simp [AudioBuffer.WellShaped, exampleBlock]) (by decide) (by decide)⟩

/-- Witness of C6 at `fs = 44100`, `cutoff = 1000`, `Q = 0.707`. -/
theorem a0_positive_witness :
    ((0 : ℝ) < 1000 ∧
     (1000 : ℝ) < (Processor.initial (44100 : ℝ) 2 2 1000 0.707).sampleRate / 2 ∧
     (0 : ℝ) < 0.707) ∧
    (Processor.initial (44100 : ℝ) 2 2 1000 0.707).a0 = 1 ∧
    (Processor.initial (44100 : ℝ) 2 2 1000 0.707).a0 ≠ 0 ∧
    0 < (updateFilter Real.cos Real.sin Real.pi
      (Processor.initial (44100 : ℝ) 2 2 1000 0.707) 1000 0.707).a0 ∧
    (updateFilter Real.cos Real.sin Real.pi
      (Processor.initial (44100 : ℝ) 2 2 1000 0.707) 1000 0.707).a0 ≠ 0 :=
  ⟨⟨by norm_num, by norm_num [Processor.initial], by norm_num⟩,
   a0_positive (Processor.initial (44100 : ℝ) 2 2 1000 0.707) 1000 0.707
      (by norm_num) (by norm_num [Processor.initial]) (by norm_num)⟩

/-- Witness of C3 (amended) at `fs = 44100`, `cutoff = 1000`, `Q = 0.707`. -/
theorem poles_inside_unit_circle_witness :
    ((cutoffParameter.rangeStart : ℝ) ≤ 1000 ∧
     (1000 : ℝ) ≤ (cutoffParameter.rangeEnd : ℝ) ∧
     (qParameter.rangeStart : ℝ) ≤ 0.707 ∧
     (0.707 : ℝ) ≤ (qParameter.rangeEnd : ℝ) ∧
     2 * (cutoffParameter.rangeEnd : ℝ)
       ≤ (Processor.initial (44100 : ℝ) 2 2 1000 0.707).sampleRate ∧
     (1000 : ℝ) < (Processor.initial (44100 : ℝ) 2 2 1000 0.707).sampleRate / 2) ∧
    (updateFilter Real.cos Real.sin Real.pi
      (Processor.initial (44100 : ℝ) 2 2 1000 0.707) 1000 0.707).a0 ≠ 0 ∧
    ∀ z : ℂ,
      ((updateFilter Real.cos Real.sin Real.pi
          (Processor.initial (44100 : ℝ) 2 2 1000 0.707) 1000 0.707).a0 : ℂ) * z ^ 2
        + ((updateFilter Real.cos Real.sin Real.pi
          (Processor.initial (44100 : ℝ) 2 2 1000 0.707) 1000 0.707).a1 : ℂ) * z
        + ((updateFilter Real.cos Real.sin Real.pi
          (Processor.initial (44100 : ℝ) 2 2 1000 0.707) 1000 0.707).a2 : ℂ) = 0 →
      Complex.abs z < 1 :=
  ⟨⟨by norm_num [cutoffParameter], by norm_num [cutoffParameter],
    by norm_num [qParameter], by norm_num [qParameter],
    by norm_num [cutoffParameter, Processor.initial], by norm_num [Processor.initial]⟩,
   poles_inside_unit_circle (Processor.initial (44100 : ℝ) 2 2 1000 0.707) 1000 0.707
      (by norm_num [cutoffParameter]) (by norm_num [cutoffParameter])
      (by norm_num [qParameter]) (by norm_num [qParameter])
      (by norm_num [cutoffParameter, Processor.initial])
      (by norm_num [Processor.initial])⟩

/-- Witness of C4 at `fs = 44100`, `cutoff = 1000`, `Q = 0.707`, the constant
input 1 and zeroed history. -/
theorem constant_input_converges_witness :
    ((0 : ℝ) < 1000 ∧
     (1000 : ℝ) < (Processor.initial (44100 : ℝ) 2 2 1000 0.707).sampleRate / 2 ∧
     (0 : ℝ) < 0.707) ∧
    (∃ y : ℕ → ℝ,
      (∀ L n, n < L → ∃ st,
        sampleLoop (updateFilter Real.cos Real.sin Real.pi
            (Processor.initial (44100 : ℝ) 2 2 1000 0.707) 1000 0.707) L 0
          (List.replicate L 1, ⟨0, 0⟩, ⟨0, 0⟩) = some st ∧
        st.1[n]? = some (y n)) ∧
      Filter.Tendsto y Filter.atTop (nhds 1)) ∧
    (updateFilter Real.cos Real.sin Real.pi
        (Processor.initial (44100 : ℝ) 2 2 1000 0.707) 1000 0.707).b0
      + (updateFilter Real.cos Real.sin Real.pi
        (Processor.initial (44100 : ℝ) 2 2 1000 0.707) 1000 0.707).b1
      + (updateFilter Real.cos Real.sin Real.pi
        (Processor.initial (44100 : ℝ) 2 2 1000 0.707) 1000 0.707).b2
      = (updateFilter Real.cos Real.sin Real.pi
        (Processor.initial (44100 : ℝ) 2 2 1000 0.707) 1000 0.707).a0
      + (updateFilter Real.cos Real.sin Real.pi
        (Processor.initial (44100 : ℝ) 2 2 1000 0.707) 1000 0.707).a1
      + (updateFilter Real.cos Real.sin Real.pi
        (Processor.initial (44100 : ℝ) 2 2 1000 0.707) 1000 0.707).a2 ∧
    sampleStep (updateFilter Real.cos Real.sin Real.pi
        (Processor.initial (44100 : ℝ) 2 2 1000 0.707) 1000 0.707)
      ([1], ⟨1, 1⟩, ⟨1, 1⟩) 0 = some ([1], ⟨1, 1⟩, ⟨1, 1⟩) :=
  ⟨⟨by norm_num, by norm_num [Processor.initial], by norm_num⟩,
   constant_input_converges (Processor.initial (44100 : ℝ) 2 2 1000 0.707) 1000 0.707 1
      ⟨0, 0⟩ ⟨0, 0⟩ (by norm_num) (by norm_num [Processor.initial]) (by norm_num)⟩

/-- Witness of C5 at `fs = 44100`, `cutoff = 1000`. -/
theorem gain_at_cutoff_witness :
    ((0 : ℝ) < 1000 ∧
     (1000 : ℝ) < (Processor.initial (44100 : ℝ) 2 2 1000 0.707).sampleRate / 2) ∧
    ∃ (K : FilterCoefficients ℂ) (z H : ℂ),
      K = (updateFilter Real.cos Real.sin Real.pi
            (Processor.initial (44100 : ℝ) 2 2 1000 0.707) 1000 0.707).coefficients.map
            Complex.ofReal ∧
      z = Complex.exp (((2 * Real.pi * 1000
            / (Processor.initial (44100 : ℝ) 2 2 1000 0.707).sampleRate : ℝ) : ℂ)
            * Complex.I) ∧
      H = transferFunction K z ∧
      K.a0 + K.a1 * z⁻¹ + K.a2 * z⁻¹ ^ 2 ≠ 0 ∧
      |Complex.abs H - 0.707| ≤ 0.05 * 0.707 ∧
      ∀ n : ℕ,
        (ChannelState.process K ⟨z ^ (n + 1), z ^ n, H * z ^ (n + 1), H * z ^ n⟩
          (z ^ (n + 2))).1 = H * z ^ (n + 2) :=
  ⟨⟨by norm_num, by norm_num [Processor.initial]⟩,
   gain_at_cutoff (Processor.initial (44100 : ℝ) 2 2 1000 0.707) 1000
      (by norm_num) (by norm_num [Processor.initial])⟩

end IIRFilter
